import Mathlib

/-!
Verification of the chain-parameter logic of rod-core-wallet
(`src/chainparams.cpp` and the kernel chainparams translation unit).

The development embeds, directly from the C++ source:

* the accumulation loop and final division of `AvgTargetSpacing`
  (src/chainparams.cpp, lines 789-823), with its two `assert`s modelled as
  an `Option` result (`none` when an assertion fails);
* the genesis-block construction `CreateGenesisBlock` (both overloads),
  parametrised over the external hash collaborators (transaction hash,
  header hash, merkle pair combiner), which live outside this excerpt;
* the nonce-search loop of `MineGenesisBlock`, with its
  `assert (nNonce < uint32 max)` modelled as an explicit failure outcome;
* `GetNetworkForMagic` from the kernel chainparams file, parametrised over
  the signet magic (which the source derives from a hash of the signet
  challenge; the hash function is an external collaborator).

Machine integers are modelled as `Nat`/`Int`; the C++ `int64_t` arithmetic in
`AvgTargetSpacing` is undefined on overflow, so the unbounded model matches
every defined execution, and all claims considered restrict the inputs to
positive spacings where C++ truncating division coincides with Lean's `/` on
`Int`.
-/

namespace RodCoreWallet

/-! ### AvgTargetSpacing (src/chainparams.cpp lines 789-823) -/

/-- State of the accumulation loop in `AvgTargetSpacing`: the running
`int64_t` variables `numer` and `denom`. -/
structure SpacingState where
  numer : Int
  denom : Int

/-- One iteration of the loop body of `AvgTargetSpacing`
(src/chainparams.cpp lines 803-818): `denom *= spacing; denom += numer;
numer *= spacing;`. -/
def avgStep (st : SpacingState) (spacing : Int) : SpacingState :=
  { numer := st.numer * spacing
    denom := st.denom * spacing + st.numer }

/-- The accumulation over the iterated spacing list, starting from
`numer = 1`, `denom = 0` (src/chainparams.cpp lines 801-818).  The list
holds the values `params.rules->GetTargetSpacing(algo, height)` for the
algorithms `{SHA256D, NEOSCRYPT}` in the fixed iteration order. -/
def avgAccum (spacings : List Int) : SpacingState :=
  spacings.foldl avgStep { numer := 1, denom := 0 }

/-- `AvgTargetSpacing` (src/chainparams.cpp lines 789-823).  The two
assertions `assert (denom > 0)` and `assert (numer % denom == 0)` are
modelled by returning `none` when either fails; otherwise the function
returns `numer / denom`. -/
def AvgTargetSpacing (spacings : List Int) : Option Int :=
  let st := avgAccum spacings
  if 0 < st.denom ∧ st.numer % st.denom = 0 then some (st.numer / st.denom)
  else none

/-- The quantity the loop accumulates in `denom`: the sum, over each
position, of the product of all the other spacings.  Defined by the
recursion that mirrors the loop; `sumExclProd_eq_sum_eraseIdx` below
identifies it with the positional formula. -/
def sumExclProd : List Int → Int
  | [] => 0
  | s :: t => t.prod + s * sumExclProd t

theorem avgAccum_go (l : List Int) : ∀ st : SpacingState,
    l.foldl avgStep st =
      { numer := st.numer * l.prod
        denom := st.denom * l.prod + st.numer * sumExclProd l } := by
  induction l with
  | nil => intro st; simp [sumExclProd]
  | cons s t ih =>
      intro st
      simp only [List.foldl_cons, ih, avgStep, List.prod_cons, sumExclProd,
        SpacingState.mk.injEq]
      constructor <;> ring

theorem avgAccum_eq (l : List Int) :
    avgAccum l = { numer := l.prod, denom := sumExclProd l } := by
  simp [avgAccum, avgAccum_go]

theorem sumExclProd_eq_sum_eraseIdx (l : List Int) :
    sumExclProd l
      = ((List.range l.length).map (fun i => (l.eraseIdx i).prod)).sum := by
  induction l with
  | nil => simp [sumExclProd]
  | cons s t ih =>
      simp only [sumExclProd, List.length_cons, List.range_succ_eq_map,
        List.map_cons, List.map_map, List.sum_cons, List.eraseIdx_cons_zero]
      rw [ih]
      congr 1
      rw [← List.sum_map_mul_left]
      refine congrArg List.sum (List.map_congr_left fun i _ => ?_)
      simp [Function.comp, List.eraseIdx_cons_succ]

theorem sumExclProd_pos : ∀ l : List Int, l ≠ [] → (∀ s ∈ l, 0 < s) →
    0 < sumExclProd l := by
  intro l
  induction l with
  | nil => intro h _; exact absurd rfl h
  | cons s t ih =>
      intro _ hpos
      have hs : 0 < s := hpos s (List.mem_cons_self s t)
      have htpos : ∀ x ∈ t, 0 < x := fun x hx => hpos x (List.mem_cons_of_mem s hx)
      have hprod : 0 < t.prod := List.prod_pos htpos
      rcases eq_or_ne t [] with h | h
      · subst h; simp [sumExclProd]
      · have h1 : 0 < sumExclProd t := ih h htpos
        simp only [sumExclProd]
        exact add_pos hprod (mul_pos hs h1)

/-- Claim C1 (amended): for every non-empty list of positive spacings, the
accumulation yields `numer` equal to the product of all spacings and `denom`
equal to the sum over `i` of the product of the spacings with index other
than `i`; the denominator is strictly positive (so the first assertion in
`AvgTargetSpacing` holds); and whenever the division is exact (i.e. the
second assertion also holds), the function returns exactly
`numer / denom`, the harmonic-mean-like quantity characterised by
`result * denom = numer`.  (The division is not exact for every positive
configuration; see the counterexample theorem.) -/
theorem avgTargetSpacing_formula (l : List Int) (hne : l ≠ [])
    (hpos : ∀ s ∈ l, 0 < s) :
    (avgAccum l).numer = l.prod ∧
    (avgAccum l).denom
      = ((List.range l.length).map (fun i => (l.eraseIdx i).prod)).sum ∧
    0 < (avgAccum l).denom ∧
    ((avgAccum l).numer % (avgAccum l).denom = 0 →
      AvgTargetSpacing l = some ((avgAccum l).numer / (avgAccum l).denom) ∧
      ((avgAccum l).numer / (avgAccum l).denom) * (avgAccum l).denom
        = (avgAccum l).numer) := by
  have hd : 0 < (avgAccum l).denom := by
    rw [avgAccum_eq]
    exact sumExclProd_pos l hne hpos
  refine ⟨by rw [avgAccum_eq], ?_, hd, ?_⟩
  · rw [avgAccum_eq, ← sumExclProd_eq_sum_eraseIdx]
  · intro hmod
    refine ⟨?_, Int.ediv_mul_cancel (Int.dvd_of_emod_eq_zero hmod)⟩
    simp only [AvgTargetSpacing]
    rw [if_pos ⟨hd, hmod⟩]

/-- Claim C1 witness: the amended theorem applied to the dual-algorithm
configuration with spacings 150 and 150. -/
theorem avgTargetSpacing_formula_witness :
    (([150, 150] : List Int) ≠ [] ∧ (∀ s ∈ ([150, 150] : List Int), 0 < s)) ∧
    ((avgAccum [150, 150]).numer = ([150, 150] : List Int).prod ∧
    (avgAccum [150, 150]).denom
      = ((List.range ([150, 150] : List Int).length).map
          (fun i => (([150, 150] : List Int).eraseIdx i).prod)).sum ∧
    0 < (avgAccum [150, 150]).denom ∧
    ((avgAccum [150, 150]).numer % (avgAccum [150, 150]).denom = 0 →
      AvgTargetSpacing [150, 150]
        = some ((avgAccum [150, 150]).numer / (avgAccum [150, 150]).denom) ∧
      ((avgAccum [150, 150]).numer / (avgAccum [150, 150]).denom)
          * (avgAccum [150, 150]).denom = (avgAccum [150, 150]).numer)) :=
  ⟨⟨by decide, by decide⟩,
    avgTargetSpacing_formula [150, 150] (by decide) (by decide)⟩

/-- Claim C1 counterexample: for the positive spacings 2 and 3 the division
is not exact, so the assertion `numer % denom == 0` fails and
`AvgTargetSpacing` does not return a value; the claim's universal exactness
statement is false. -/
theorem avgTargetSpacing_not_always_exact :
    (∀ s ∈ ([2, 3] : List Int), 0 < s) ∧
    (avgAccum [2, 3]).numer % (avgAccum [2, 3]).denom ≠ 0 ∧
    AvgTargetSpacing [2, 3] = none := by decide

/-- Claim C3 (amended): for two algorithms with equal positive spacing `s`,
the accumulation produces `numer = s * s` and `denom = s + s`; when `s` is
even both assertions hold and the result is exactly `s / 2`, but when `s` is
odd the exact-division assertion fails and no value is returned. -/
theorem avgTargetSpacing_pair_eq (s : Int) (hs : 0 < s) :
    (s % 2 = 0 → AvgTargetSpacing [s, s] = some (s / 2)) ∧
    (s % 2 ≠ 0 → AvgTargetSpacing [s, s] = none) := by
  have hacc : avgAccum [s, s] = { numer := s * s, denom := s + s } := by
    simp [avgAccum, avgStep]
  have h2 : s + s = s * 2 := by ring
  have hmod : s * s % (s + s) = s * (s % 2) := by
    rw [h2, Int.mul_emod_mul_of_pos _ _ hs]
  have hdiv : s * s / (s + s) = s / 2 := by
    rw [h2, Int.mul_ediv_mul_of_pos _ _ hs]
  have hdpos : (0 : Int) < s + s := by linarith
  constructor
  · intro he
    simp only [AvgTargetSpacing, hacc]
    rw [if_pos ⟨hdpos, by rw [hmod, he, mul_zero]⟩, hdiv]
  · intro ho
    simp only [AvgTargetSpacing, hacc]
    rw [if_neg]
    rintro ⟨-, hc⟩
    rw [hmod] at hc
    rcases mul_eq_zero.mp hc with h | h
    · exact absurd h (ne_of_gt hs)
    · exact ho h

/-- Claim C3 witness: for the system's dual-algorithm configuration with
spacings 150 and 150 the result is exactly 75. -/
theorem avgTargetSpacing_pair_eq_witness :
    (0 : Int) < 150 ∧ AvgTargetSpacing [150, 150] = some 75 := by
  refine ⟨by decide, ?_⟩
  have h := (avgTargetSpacing_pair_eq 150 (by decide)).1 (by decide)
  rw [h]
  decide

/-- Claim C3 counterexample: for the positive odd spacing 3 on both
algorithms, the exact-division assertion fails (9 is not divisible by 6), so
the function does not yield `s / 2`; the claim is false for odd `s`. -/
theorem avgTargetSpacing_pair_odd_fails :
    (0 : Int) < 3 ∧ AvgTargetSpacing [3, 3] = none := by decide

/-- Claim C4: over a single-algorithm list `[s]` the accumulation returns
exactly `s`: the loop produces `numer = s`, `denom = 1`, both assertions
hold, and `s / 1 = s`. -/
theorem avgTargetSpacing_single (s : Int) (hs : 0 < s) :
    AvgTargetSpacing [s] = some s := by
  have hacc : avgAccum [s] = { numer := s, denom := 1 } := by
    simp [avgAccum, avgStep]
  simp only [AvgTargetSpacing, hacc]
  rw [if_pos ⟨Int.one_pos, Int.emod_one s⟩, Int.ediv_one]

/-- Claim C4 witness: the single-algorithm theorem at spacing 7. -/
theorem avgTargetSpacing_single_witness :
    (0 : Int) < 7 ∧ AvgTargetSpacing [7] = some 7 :=
  ⟨by decide, avgTargetSpacing_single 7 (by decide)⟩

theorem sumExclProd_perm {l l' : List Int} (h : l.Perm l') :
    sumExclProd l = sumExclProd l' := by
  induction h with
  | nil => rfl
  | cons x h ih =>
      simp only [sumExclProd]
      rw [ih, h.prod_eq]
  | swap x y t =>
      simp only [sumExclProd, List.prod_cons]
      ring
  | trans h1 h2 ih1 ih2 => exact ih1.trans ih2

/-- Claim C5: the final numeric result of the `AvgTargetSpacing`
accumulation (including the assertion outcomes) is invariant under
permuting a non-empty list of positive spacings, even though the
intermediate `numer`/`denom` values differ. -/
theorem avgTargetSpacing_perm (l l' : List Int) (hpos : ∀ s ∈ l, 0 < s)
    (hne : l ≠ []) (h : l.Perm l') :
    AvgTargetSpacing l = AvgTargetSpacing l' := by
  have h1 : avgAccum l = avgAccum l' := by
    rw [avgAccum_eq, avgAccum_eq, h.prod_eq, sumExclProd_perm h]
  simp only [AvgTargetSpacing, h1]

/-- Claim C5 witness: permuting the two-element spacing list `[100, 50]`
to `[50, 100]` leaves the result unchanged. -/
theorem avgTargetSpacing_perm_witness :
    (∀ s ∈ ([100, 50] : List Int), 0 < s) ∧ ([100, 50] : List Int) ≠ [] ∧
    ([100, 50] : List Int).Perm [50, 100] ∧
    AvgTargetSpacing [100, 50] = AvgTargetSpacing [50, 100] :=
  ⟨by decide, by decide, List.Perm.swap 50 100 [],
    avgTargetSpacing_perm [100, 50] [50, 100] (by decide) (by decide)
      (List.Perm.swap 50 100 [])⟩

/-! ### Genesis block construction (CreateGenesisBlock, src/chainparams.cpp
lines 72-125) -/

/-- A script element.  The source builds scripts with `CScript () << data`
(a pushdata) and the opcodes `OP_HASH160` / `OP_EQUAL`; the byte-level
script encoding lives in script.h, outside this excerpt, so scripts are
modelled at the element level. -/
inductive ScriptElem
  | pushdata (bytes : List Nat)
  | opHash160
  | opEqual

structure CTxIn where
  scriptSig : List ScriptElem

structure CTxOut where
  nValue : Int
  scriptPubKey : List ScriptElem

structure CMutableTransaction where
  nVersion : Int
  vin : List CTxIn
  vout : List CTxOut

/-- The fields of CPureBlockHeader (the fake header attached to the pow
data is one of these, default-constructed to all-null).  256-bit hashes are
modelled as Nat, with 0 the null hash. -/
structure CPureBlockHeader where
  nVersion : Int := 0
  hashPrevBlock : Nat := 0
  hashMerkleRoot : Nat := 0
  nTime : Nat := 0
  nBits : Nat := 0
  nNonce : Nat := 0

inductive PowAlgo
  | SHA256D
  | NEOSCRYPT

/-- The pow data attached to a block.  Modelled from the spec: powdata.h is
not under src/; the spec describes a designated core algorithm, a
difficulty-bits field, and an attached auxiliary/fake header carrying the
nonce. -/
structure PowData where
  algo : PowAlgo
  bits : Nat
  fakeHeader : Option CPureBlockHeader

structure CBlock where
  nVersion : Int := 0
  hashPrevBlock : Nat := 0
  hashMerkleRoot : Nat := 0
  nTime : Nat := 0
  nBits : Nat := 0
  nNonce : Nat := 0
  vtx : List CMutableTransaction := []
  pow : PowData := { algo := PowAlgo.SHA256D, bits := 0, fakeHeader := none }

/-- The header part of a block: `CBlock::GetHash` serialises and hashes
exactly these six fields (the pow data is not part of the header hash). -/
def headerOf (b : CBlock) : CPureBlockHeader :=
  { nVersion := b.nVersion
    hashPrevBlock := b.hashPrevBlock
    hashMerkleRoot := b.hashMerkleRoot
    nTime := b.nTime
    nBits := b.nBits
    nNonce := b.nNonce }

/-- Modelled from the spec: the external hash collaborators (hash.h,
primitives/transaction.h and primitives/block.h are not under src/): a
deterministic transaction hash, a deterministic header hash, and a
deterministic hash of a multi-leaf hash sequence used by merkle trees with
more than one leaf.  All results are 256-bit values modelled as Nat. -/
structure HashModel where
  txHash : CMutableTransaction → Nat
  headerHash : CPureBlockHeader → Nat
  treeHash : List Nat → Nat

/-- Modelled from the spec: `BlockMerkleRoot` (consensus/merkle.cpp, not
under src/) is a deterministic hash of the ordered transaction-hash list,
and the merkle root of a one-leaf tree equals the leaf's hash, with no
further hashing.  Trees with more than one leaf use the abstract tree hash;
only the one-leaf case is exercised by the genesis construction. -/
def merkleRootOfHashes (treeHash : List Nat → Nat) : List Nat → Nat
  | [] => 0
  | [h] => h
  | hs => treeHash hs

def BlockMerkleRoot (hm : HashModel) (b : CBlock) : Nat :=
  merkleRootOfHashes hm.treeHash (b.vtx.map hm.txHash)

/-- COIN (consensus/amount.h, outside this excerpt): 100,000,000 base units
per coin. -/
def COIN : Int := 100000000

/-- premineAmount (src/chainparams.cpp line 35): 222,222,222 CHI. -/
def premineAmount : Int := 222222222 * COIN

/-- CreateGenesisBlock, 7-argument overload (src/chainparams.cpp lines
72-99): builds the one-input/one-output coinbase transaction, assembles the
block with primary nBits and nNonce set to 0 and a null previous-block
hash, computes the merkle root, and attaches pow data with core algorithm
NEOSCRYPT, the supplied bits, and a fake header carrying the supplied nonce
and the block's own header hash in its merkle-root field. -/
def CreateGenesisBlock (hm : HashModel)
    (genesisInputScript genesisOutputScript : List ScriptElem)
    (nTime nNonce nBits : Nat) (nVersion : Int) (genesisReward : Int) :
    CBlock :=
  let txNew : CMutableTransaction :=
    { nVersion := 1
      vin := [{ scriptSig := genesisInputScript }]
      vout := [{ nValue := genesisReward, scriptPubKey := genesisOutputScript }] }
  let genesis : CBlock :=
    { nTime := nTime
      nBits := 0
      nNonce := 0
      nVersion := nVersion
      vtx := [txNew]
      hashPrevBlock := 0 }
  let genesis : CBlock := { genesis with hashMerkleRoot := BlockMerkleRoot hm genesis }
  let fakeHeader : CPureBlockHeader :=
    { nNonce := nNonce, hashMerkleRoot := hm.headerHash (headerOf genesis) }
  { genesis with
      pow := { algo := PowAlgo.NEOSCRYPT, bits := nBits,
               fakeHeader := some fakeHeader } }

/-- CreateGenesisBlock, 5-argument overload (src/chainparams.cpp lines
106-125): embeds the timestamp bytes as the input script's pushdata,
byte-reverses the premine script hash and wraps it as OP_HASH160 <hash>
OP_EQUAL, and calls the 7-argument overload with version 1 and the premine
amount. -/
def CreateGenesisBlock' (hm : HashModel) (nTime nNonce nBits : Nat)
    (timestamp : List Nat) (premineP2sh : List Nat) : CBlock :=
  let genesisInput : List ScriptElem := [ScriptElem.pushdata timestamp]
  let scriptHash : List Nat := premineP2sh.reverse
  let genesisOutput : List ScriptElem :=
    [ScriptElem.opHash160, ScriptElem.pushdata scriptHash, ScriptElem.opEqual]
  CreateGenesisBlock hm genesisInput genesisOutput nTime nNonce nBits 1
    premineAmount

/-- Claim C6: every block returned by the genesis builder contains exactly
one transaction, has its previous-block hash equal to the null (zero) hash,
and has its merkle root equal to the hash of that single transaction (a
one-leaf merkle tree, no intermediate levels). -/
theorem createGenesis_single_tx (hm : HashModel) (nTime nNonce nBits : Nat)
    (timestamp premineP2sh : List Nat) :
    (CreateGenesisBlock' hm nTime nNonce nBits timestamp premineP2sh).vtx.length = 1 ∧
    (CreateGenesisBlock' hm nTime nNonce nBits timestamp premineP2sh).hashPrevBlock = 0 ∧
    ∃ tx, (CreateGenesisBlock' hm nTime nNonce nBits timestamp premineP2sh).vtx = [tx] ∧
      (CreateGenesisBlock' hm nTime nNonce nBits timestamp premineP2sh).hashMerkleRoot
        = hm.txHash tx :=
  ⟨rfl, rfl, ⟨_, rfl, rfl⟩⟩

/-- Claim C7: the genesis builder is deterministic — two invocations with
identical inputs (time, nonce, bits, message, premine hash) produce blocks
with identical header hashes and identical merkle roots. -/
theorem createGenesis_deterministic (hm : HashModel)
    (t₁ n₁ b₁ : Nat) (m₁ p₁ : List Nat)
    (t₂ n₂ b₂ : Nat) (m₂ p₂ : List Nat)
    (ht : t₁ = t₂) (hn : n₁ = n₂) (hb : b₁ = b₂) (hmsg : m₁ = m₂)
    (hp : p₁ = p₂) :
    hm.headerHash (headerOf (CreateGenesisBlock' hm t₁ n₁ b₁ m₁ p₁))
      = hm.headerHash (headerOf (CreateGenesisBlock' hm t₂ n₂ b₂ m₂ p₂)) ∧
    (CreateGenesisBlock' hm t₁ n₁ b₁ m₁ p₁).hashMerkleRoot
      = (CreateGenesisBlock' hm t₂ n₂ b₂ m₂ p₂).hashMerkleRoot := by
  subst ht hn hb hmsg hp
  exact ⟨rfl, rfl⟩

/-- A concrete hash model used to instantiate hypothesis-bearing theorems
at a closed input. -/
def trivialHashModel : HashModel :=
  { txHash := fun _ => 0, headerHash := fun _ => 0, treeHash := fun _ => 0 }

/-- Claim C7 witness: determinism instantiated at the mainnet literals
(time 1531470713, nonce 482087, bits 0x1e0ffff0) with a concrete hash
model. -/
theorem createGenesis_deterministic_witness :
    trivialHashModel.headerHash
        (headerOf (CreateGenesisBlock' trivialHashModel 1531470713 482087
          0x1e0ffff0 [72] [1]))
      = trivialHashModel.headerHash
        (headerOf (CreateGenesisBlock' trivialHashModel 1531470713 482087
          0x1e0ffff0 [72] [1])) ∧
    (CreateGenesisBlock' trivialHashModel 1531470713 482087 0x1e0ffff0
        [72] [1]).hashMerkleRoot
      = (CreateGenesisBlock' trivialHashModel 1531470713 482087 0x1e0ffff0
        [72] [1]).hashMerkleRoot :=
  createGenesis_deterministic trivialHashModel _ _ _ _ _ _ _ _ _ _
    rfl rfl rfl rfl rfl

/-- Claim C9: the returned block's primary header has nNonce = 0 and
nBits = 0; the supplied nonce is stored only in the attached fake header,
whose merkle-commitment field holds the block's own header hash, and the
supplied difficulty bits are stored only in the pow data. -/
theorem createGenesis_pow_placement (hm : HashModel) (nTime nNonce nBits : Nat)
    (timestamp premineP2sh : List Nat) :
    (CreateGenesisBlock' hm nTime nNonce nBits timestamp premineP2sh).nNonce = 0 ∧
    (CreateGenesisBlock' hm nTime nNonce nBits timestamp premineP2sh).nBits = 0 ∧
    (CreateGenesisBlock' hm nTime nNonce nBits timestamp premineP2sh).pow.bits = nBits ∧
    ∃ fh, (CreateGenesisBlock' hm nTime nNonce nBits timestamp premineP2sh).pow.fakeHeader
        = some fh ∧
      fh.nNonce = nNonce ∧
      fh.hashMerkleRoot
        = hm.headerHash
            (headerOf (CreateGenesisBlock' hm nTime nNonce nBits timestamp premineP2sh)) :=
  ⟨rfl, rfl, rfl, ⟨_, rfl, rfl, rfl⟩⟩

/-! ### MineGenesisBlock nonce search (src/chainparams.cpp lines 131-151) -/

/-- The largest value representable in the uint32_t nonce field. -/
def uint32Max : Nat := 4294967295

/-- Outcome of the nonce-search loop: either a nonce passing the
proof-of-work check, or the fatal assertion
`assert (fakeHeader.nNonce < uint32 max)` firing. -/
inductive MineResult
  | found (nonce : Nat)
  | assertionFailed (nonce : Nat)
deriving DecidableEq

/-- The search loop of MineGenesisBlock (src/chainparams.cpp lines
138-144): while the proof-of-work check fails, assert that the nonce is
below the uint32 maximum and increment it.  `check` abstracts
`pow.checkProofOfWork`, which is defined in powdata.cpp outside this
excerpt. -/
def mineFrom (check : Nat → Bool) (nonce : Nat) : MineResult :=
  if check nonce then MineResult.found nonce
  else if h : nonce < uint32Max then mineFrom check (nonce + 1)
  else MineResult.assertionFailed nonce
termination_by uint32Max - nonce
decreasing_by omega

/-- MineGenesisBlock's nonce search, starting from the initial fake-header
nonce.  The surrounding I/O (progress printing, setting nTime from the
clock, exiting the process on success) does not affect the nonce search. -/
def MineGenesisBlock (check : Nat → Bool) (startNonce : Nat) : MineResult :=
  mineFrom check startNonce

theorem mineFrom_exhaust_aux (check : Nat → Bool) :
    ∀ d start, uint32Max - start = d → start ≤ uint32Max →
      (∀ n, n ≤ uint32Max → check n = false) →
      mineFrom check start = MineResult.assertionFailed uint32Max := by
  intro d
  induction d with
  | zero =>
      intro start hd hle hf
      have hstart : start = uint32Max := by omega
      subst hstart
      unfold mineFrom
      simp [hf uint32Max le_rfl]
  | succ k ih =>
      intro start hd hle hf
      have h1 : start < uint32Max := by omega
      unfold mineFrom
      simp only [hf start hle, Bool.false_eq_true, if_false, dif_pos h1]
      exact ih (start + 1) (by omega) (by omega) hf

theorem mineFrom_assert_aux (check : Nat → Bool) :
    ∀ d start, uint32Max - start = d → start ≤ uint32Max →
      ∀ m, mineFrom check start = MineResult.assertionFailed m →
        m = uint32Max ∧ check m = false := by
  intro d
  induction d with
  | zero =>
      intro start hd hle m hm
      have hstart : start = uint32Max := by omega
      subst hstart
      unfold mineFrom at hm
      by_cases hc : check uint32Max = true
      · rw [if_pos hc] at hm
        exact absurd hm (by simp)
      · rw [if_neg hc, dif_neg (lt_irrefl uint32Max)] at hm
        injection hm with h
        subst h
        exact ⟨rfl, Bool.not_eq_true _ |>.mp hc⟩
  | succ k ih =>
      intro start hd hle m hm
      unfold mineFrom at hm
      by_cases hc : check start = true
      · rw [if_pos hc] at hm
        exact absurd hm (by simp)
      · have h1 : start < uint32Max := by omega
        rw [if_neg hc, dif_pos h1] at hm
        exact ih (start + 1) (by omega) (by omega) m hm

/-- Claim C8: in the mining-mode nonce search, if the proof-of-work check
fails for every representable nonce, the loop reaches the uint32 maximum
and the fatal assertion fires there; conversely the assertion can only fire
at the maximum nonce (with the check false there), so the nonce is never
silently wrapped past the maximum to zero. -/
theorem mineGenesis_nonce_exhaustion (check : Nat → Bool) (start : Nat)
    (hstart : start ≤ uint32Max) :
    ((∀ n, n ≤ uint32Max → check n = false) →
      MineGenesisBlock check start = MineResult.assertionFailed uint32Max) ∧
    (∀ m, MineGenesisBlock check start = MineResult.assertionFailed m →
      m = uint32Max ∧ check m = false) :=
  ⟨fun hf => mineFrom_exhaust_aux check (uint32Max - start) start rfl hstart hf,
   fun m hm => mineFrom_assert_aux check (uint32Max - start) start rfl hstart m hm⟩

/-- Claim C8 witness: the exhaustion theorem applied with an
always-failing proof-of-work check at the maximal start nonce. -/
theorem mineGenesis_nonce_exhaustion_witness :
    uint32Max ≤ uint32Max ∧
    MineGenesisBlock (fun _ => false) uint32Max
      = MineResult.assertionFailed uint32Max :=
  ⟨le_rfl,
    (mineGenesis_nonce_exhaustion (fun _ => false) uint32Max le_rfl).1
      (fun _ _ => rfl)⟩

/-! ### GetNetworkForMagic (kernel chainparams lines 805-825) -/

inductive ChainType
  | MAIN
  | TESTNET
  | TESTNET4
  | SIGNET
  | REGTEST
deriving DecidableEq

/-- Mainnet message-start magic (kernel chainparams lines 229-232). -/
def mainnetMagic : List Nat := [0xcc, 0xbe, 0xb4, 0xfe]

/-- Testnet message-start magic (kernel chainparams lines 337-340). -/
def testnetMagic : List Nat := [0xcc, 0xbf, 0xb5, 0xfe]

/-- Testnet4 message-start magic (kernel chainparams lines 441-444). -/
def testnet4Magic : List Nat := [0x1c, 0x16, 0x3f, 0x28]

/-- Regtest message-start magic (kernel chainparams lines 667-670). -/
def regtestMagic : List Nat := [0xcc, 0xbf, 0xb5, 0xda]

/-- GetNetworkForMagic (kernel chainparams lines 805-825): compares the
given 4 bytes against the five networks' magics in the fixed order mainnet,
testnet, testnet4, regtest, signet.  The signet magic is the first four
bytes of a double-SHA256 of the serialized default signet challenge (kernel
chainparams lines 576-580); the hash function is outside this excerpt, so
the signet magic is a parameter. -/
def GetNetworkForMagic (signetMagic message : List Nat) : Option ChainType :=
  if message = mainnetMagic then some ChainType.MAIN
  else if message = testnetMagic then some ChainType.TESTNET
  else if message = testnet4Magic then some ChainType.TESTNET4
  else if message = regtestMagic then some ChainType.REGTEST
  else if message = signetMagic then some ChainType.SIGNET
  else none

/-- Claim C10: GetNetworkForMagic returns the chain type whose magic equals
the given bytes, checking mainnet, testnet, testnet4, regtest and signet in
that fixed order, and returns no value exactly when the bytes match none of
the five magics. -/
theorem getNetworkForMagic_spec (signetMagic message : List Nat) :
    (GetNetworkForMagic signetMagic message = some ChainType.MAIN
      ↔ message = mainnetMagic) ∧
    (GetNetworkForMagic signetMagic message = some ChainType.TESTNET
      ↔ message = testnetMagic) ∧
    (GetNetworkForMagic signetMagic message = some ChainType.TESTNET4
      ↔ message = testnet4Magic) ∧
    (GetNetworkForMagic signetMagic message = some ChainType.REGTEST
      ↔ message = regtestMagic) ∧
    (GetNetworkForMagic signetMagic message = some ChainType.SIGNET
      ↔ (message = signetMagic ∧ message ≠ mainnetMagic ∧
         message ≠ testnetMagic ∧ message ≠ testnet4Magic ∧
         message ≠ regtestMagic)) ∧
    (GetNetworkForMagic signetMagic message = none
      ↔ (message ≠ mainnetMagic ∧ message ≠ testnetMagic ∧
         message ≠ testnet4Magic ∧ message ≠ regtestMagic ∧
         message ≠ signetMagic)) := by
  unfold GetNetworkForMagic
  split_ifs with h1 h2 h3 h4 h5 <;>
    simp_all [mainnetMagic, testnetMagic, testnet4Magic, regtestMagic]

end RodCoreWallet
